import Mathlib

/-!
Shallow embedding of `src/converters/onnx2nnet.py` (the NNet repository's
ONNX-to-NNet converter) and proofs about its graph-walk extraction algorithm.

Floating point values are modelled as rationals; numpy arrays of rank 1 and 2
are modelled by the `Tensor` type below.  The external file writer is modelled
by returning the argument record that would be passed to `writeNNet`; Python
runtime errors (failed `assert`, `IndexError` on `[...][0]` / `node.output[0]`)
are modelled as constructors of `ExtractionFailure`.
-/

namespace Onnx2NNet

/-- A numpy array as produced by `numpy_helper.to_array`: a rank-2 matrix or a
rank-1 vector of rationals. -/
inductive Tensor where
  | mat (rows : List (List ℚ))
  | vec (entries : List ℚ)
deriving DecidableEq

/-- numpy `transpose()`: transposes a rank-2 array and is the identity on a
rank-1 array. -/
def Tensor.transpose : Tensor → Tensor
  | mat rows => mat rows.transpose
  | vec v => vec v

/-- numpy in-place scalar multiplication `a *= c`, elementwise. -/
def Tensor.smul (c : ℚ) : Tensor → Tensor
  | mat rows => mat (rows.map fun r => r.map fun x => c * x)
  | vec v => vec (v.map fun x => c * x)

/-- numpy `a.shape[0]`: the row count of a matrix, the length of a vector. -/
def Tensor.shape0 : Tensor → Nat
  | mat rows => rows.length
  | vec v => v.length

/-- `np.zeros(n)`: the rank-1 all-zero array of length `n`. -/
def Tensor.zeros (n : Nat) : Tensor := vec (List.replicate n 0)

/-- An ONNX attribute as read by the converter: a name plus the `f` (float)
and `i` (int) payload fields used by the Gemm branch. -/
structure Attr where
  name : String
  f : ℚ
  i : Int
deriving DecidableEq

/-- An ONNX graph node: `op_type`, ordered input tensor names, ordered output
tensor names, and its attribute list (the `node.attribute` field). -/
structure Node where
  op_type : String
  input : List String
  output : List String
  attrs : List Attr
deriving DecidableEq

/-- A named constant tensor bundled with the graph (one entry of
`graph.initializer`). -/
structure TensorProto where
  name : String
  value : Tensor
deriving DecidableEq

/-- A graph-level input or output declaration (only its name is read). -/
structure ValueInfo where
  name : String
deriving DecidableEq

/-- The fields of `model.graph` read by `onnx2nnet`. -/
structure Graph where
  node : List Node
  initializer : List TensorProto
  input : List ValueInfo
  output : List ValueInfo
deriving DecidableEq

/-- The failure modes of the conversion.  Each constructor corresponds to one
failure site of the Python source: the two endpoint `assert len(...)==1`
statements, the arity `assert`s on node inputs, the `IndexError` raised by
`[...][0]` on an empty weight lookup in the Gemm branch, the `IndexError`
raised by `node.output[0]` on a node without outputs, and the final
post-scan validation that refuses to write the output file. -/
inductive ExtractionFailure where
  | ambiguousEndpoint
  | malformedNode (op : String)
  | missingInitializer (name : String)
  | emptyOutput (op : String)
  | incompleteChain (cursor outputName : String) (nWeights nBiases : Nat)
deriving DecidableEq

/-- The mutable state of the scan loop: the accumulated weight matrices, the
accumulated bias vectors and the traversal cursor (the Python variable
`inputName`, re-assigned to each consumed node's first output). -/
structure ScanState where
  weights : List Tensor
  biases : List Tensor
  cursor : String
deriving DecidableEq

/-- What one loop iteration does to the control flow: keep scanning with the
new state, or `break` out of the loop with the final state. -/
inductive ScanOutcome where
  | cont (st : ScanState)
  | stop (st : ScanState)
deriving DecidableEq

/-- The state such an outcome carries. -/
def ScanOutcome.state : ScanOutcome → ScanState
  | cont st => st
  | stop st => st

/-- The Gemm attribute values gathered by the attribute loop. -/
structure GemmAttrs where
  alpha : ℚ
  beta : ℚ
  transA : Bool
  transB : Bool
deriving DecidableEq

/-- One iteration of the Gemm attribute loop (`for attr in node.attribute`). -/
def gemmStep (acc : GemmAttrs) (a : Attr) : GemmAttrs :=
  if a.name = "alpha" then { acc with alpha := a.f }
  else if a.name = "beta" then { acc with beta := a.f }
  else if a.name = "transA" then { acc with transA := a.i != 0 }
  else if a.name = "transB" then { acc with transB := a.i != 0 }
  else acc

/-- The Gemm attribute loop: fold `gemmStep` over `node.attribute` starting
from the defaults `alpha = 1.0, beta = 1.0, transA = False, transB = False`. -/
def parseGemmAttrs (attrs : List Attr) : GemmAttrs :=
  attrs.foldl gemmStep { alpha := 1, beta := 1, transA := false, transB := false }

/-- The list comprehension
`[numpy_helper.to_array(inits) for inits in graph.initializer if inits.name==x]`:
the values of all initializers whose name equals `x`, in declaration order. -/
def initVals (inits : List TensorProto) (x : String) : List Tensor :=
  (inits.filter fun i => i.name = x).map fun i => i.value

/-- The list comprehension `[i.name for i in graph.initializer]`. -/
def initNames (inits : List TensorProto) : List String := inits.map fun i => i.name

/-- The body of the scan loop for a node whose input list contains the cursor:
dispatch on `op_type`.  Returns `some` of the updated state for the four
supported operator kinds, `none` for the unsupported-operator branch (the
Python `else` that clears the accumulators and breaks), and an error where the
Python source raises. -/
def consumeNode (inits : List TensorProto) (st : ScanState) (n : Node) :
    Except ExtractionFailure (Option ScanState) :=
  if n.op_type = "MatMul" then
    match n.input with
    | [a, b] =>
      let weightName := if a = st.cursor then b else a
      match n.output with
      | o :: _ => .ok (some ⟨st.weights ++ initVals inits weightName, st.biases, o⟩)
      | [] => .error (.emptyOutput "MatMul")
    | _ => .error (.malformedNode "MatMul")
  else if n.op_type = "Add" then
    match n.input with
    | [a, b] =>
      let biasName := if a = st.cursor then b else a
      match n.output with
      | o :: _ => .ok (some ⟨st.weights, st.biases ++ initVals inits biasName, o⟩)
      | [] => .error (.emptyOutput "Add")
    | _ => .error (.malformedNode "Add")
  else if n.op_type = "Gemm" then
    match n.input with
    | [_, weightName, biasName] =>
      let p := parseGemmAttrs n.attrs
      match (initVals inits weightName).head? with
      | none => .error (.missingInitializer weightName)
      | some w0 =>
        let weight := Tensor.smul p.alpha (if p.transA then w0.transpose else w0)
        let bias :=
          if biasName ∈ initNames inits then (initVals inits biasName).headD (Tensor.vec [])
          else Tensor.zeros weight.shape0
        match n.output with
        | o :: _ =>
          .ok (some ⟨st.weights ++ [weight], st.biases ++ [Tensor.smul p.beta bias], o⟩)
        | [] => .error (.emptyOutput "Gemm")
    | _ => .error (.malformedNode "Gemm")
  else if n.op_type = "Relu" then
    match n.output with
    | o :: _ => .ok (some ⟨st.weights, st.biases, o⟩)
    | [] => .error (.emptyOutput "Relu")
  else .ok none

/-- One full iteration of the scan loop over one node: nodes whose input list
does not contain the cursor are ignored; an unsupported operator clears the
accumulators and breaks; otherwise the node is consumed and, if the new cursor
equals `outputName`, the loop breaks (`if outputName == inputName: break`). -/
def stepNode (inits : List TensorProto) (outputName : String) (st : ScanState) (n : Node) :
    Except ExtractionFailure ScanOutcome :=
  if st.cursor ∈ n.input then
    match consumeNode inits st n with
    | .error e => .error e
    | .ok none => .ok (.stop ⟨[], [], st.cursor⟩)
    | .ok (some st') =>
      if outputName = st'.cursor then .ok (.stop st') else .ok (.cont st')
  else .ok (.cont st)

/-- The scan loop (`for node in graph.node`), propagating `break` out of the
iteration. -/
def runNodes (inits : List TensorProto) (outputName : String) :
    ScanState → List Node → Except ExtractionFailure ScanOutcome
  | st, [] => .ok (.cont st)
  | st, n :: rest =>
    match stepNode inits outputName st n with
    | .error e => .error e
    | .ok (.stop st') => .ok (.stop st')
    | .ok (.cont st') => runNodes inits outputName st' rest

/-- The state in which the scan loop leaves the accumulators and the cursor. -/
def scanNodes (inits : List TensorProto) (outputName : String) (st : ScanState)
    (nodes : List Node) : Except ExtractionFailure ScanState :=
  (runNodes inits outputName st nodes).map ScanOutcome.state

/-- Endpoint resolution: `if not inputName: assert len(graph.input)==1;
inputName = graph.input[0].name` (and the same for the output).  A non-empty
caller-supplied name is used as given; an omitted (empty) name is inferred
from a singleton declaration list and is an error otherwise. -/
def resolveEndpoint (given : String) (declared : List ValueInfo) :
    Except ExtractionFailure String :=
  if given = "" then
    match declared with
    | [v] => .ok v.name
    | _ => .error .ambiguousEndpoint
  else .ok given

/-- `np.finfo(np.float32).max`, the most positive representable float32,
which equals `2^128 - 2^104` exactly. -/
def float32max : ℚ := 2 ^ 128 - 2 ^ 104

/-- `np.finfo(np.float32).min`, the most negative representable float32. -/
def float32min : ℚ := -float32max

/-- The argument record handed to the external `writeNNet` writer on
success. -/
structure WriteArgs where
  weights : List Tensor
  biases : List Tensor
  inputMins : List ℚ
  inputMaxes : List ℚ
  means : List ℚ
  ranges : List ℚ
deriving DecidableEq

/-- Equality of `Except` results is decidable when both components are. -/
instance {ε α : Type} [DecidableEq ε] [DecidableEq α] : DecidableEq (Except ε α)
  | .error a, .error b =>
    if h : a = b then .isTrue (by rw [h]) else .isFalse fun hh => h (Except.error.inj hh)
  | .error _, .ok _ => .isFalse fun hh => Except.noConfusion hh
  | .ok _, .error _ => .isFalse fun hh => Except.noConfusion hh
  | .ok a, .ok b =>
    if h : a = b then .isTrue (by rw [h]) else .isFalse fun hh => h (Except.ok.inj hh)

/-- The whole conversion: resolve the endpoints, scan the node list starting
from the input name, apply the optional `take_transpose` post-process,
validate `outputName==inputName and len(weights)>0 and
len(weights)==len(biases)`, default the missing normalization arrays from
`inputSize = weights[0].shape[0]`, and return the record passed to
`writeNNet` — or the failure that prevented the write. -/
def onnx2nnet (g : Graph) (inputMins inputMaxes means ranges : Option (List ℚ))
    (inputName outputName : String) (take_transpose : Bool) :
    Except ExtractionFailure WriteArgs :=
  match resolveEndpoint inputName g.input with
  | .error e => .error e
  | .ok inName =>
    match resolveEndpoint outputName g.output with
    | .error e => .error e
    | .ok outName =>
      match scanNodes g.initializer outName ⟨[], [], inName⟩ g.node with
      | .error e => .error e
      | .ok st =>
        let weights := if take_transpose then st.weights.map Tensor.transpose else st.weights
        if st.cursor = outName ∧ 0 < weights.length ∧ weights.length = st.biases.length then
          let inputSize := (weights.headD (Tensor.vec [])).shape0
          .ok
            { weights := weights
              biases := st.biases
              inputMins := inputMins.getD (List.replicate inputSize float32min)
              inputMaxes := inputMaxes.getD (List.replicate inputSize float32max)
              means := means.getD (List.replicate (inputSize + 1) 0)
              ranges := ranges.getD (List.replicate (inputSize + 1) 1) }
        else .error (.incompleteChain st.cursor outName weights.length st.biases.length)

/-- A concrete two-node graph (`Gemm` then `Relu`) that converts
successfully: input `"x"`, output `"out"`, a 1x2 weight and a length-1
bias. -/
def exNet : Graph :=
  { node := [⟨"MatMul", ["x", "W"], ["h"], []⟩, ⟨"Add", ["h", "B"], ["y"], []⟩,
      ⟨"Relu", ["y"], ["out"], []⟩]
    initializer := [⟨"W", Tensor.mat [[3, 5]]⟩, ⟨"B", Tensor.vec [7]⟩]
    input := [⟨"x"⟩]
    output := [⟨"out"⟩] }

/-- A concrete graph whose chain hits a `Flatten` node after a valid
`MatMul`. -/
def exAbort : Graph :=
  { node := [⟨"MatMul", ["x", "W"], ["y"], []⟩, ⟨"Flatten", ["y"], ["z"], []⟩]
    initializer := [⟨"W", Tensor.mat [[3, 5]]⟩, ⟨"B", Tensor.vec [7]⟩]
    input := [⟨"x"⟩]
    output := [⟨"out"⟩] }

/-- A concrete graph whose `MatMul` references the absent weight name
`"Wmiss"`, followed by an `Add` with a present bias. -/
def exMissing : Graph :=
  { node := [⟨"MatMul", ["x", "Wmiss"], ["y"], []⟩, ⟨"Add", ["y", "B"], ["out"], []⟩]
    initializer := [⟨"B", Tensor.vec [7]⟩]
    input := [⟨"x"⟩]
    output := [⟨"out"⟩] }

/-- A concrete graph whose single `Gemm` references the absent weight name
`"Wm"`. -/
def exMissingGemm : Graph :=
  { node := [⟨"Gemm", ["x", "Wm", "B"], ["out"], []⟩]
    initializer := []
    input := [⟨"x"⟩]
    output := [⟨"out"⟩] }

/-- A concrete graph declaring two graph-level inputs. -/
def exAmb : Graph :=
  { node := [], initializer := [], input := [⟨"a"⟩, ⟨"b"⟩], output := [⟨"o"⟩] }

/-- Two attributes that agree on name and float payload, and on the int
payload unless they are named "transB". -/
def attrEquivTransB (x y : Attr) : Prop :=
  x.name = y.name ∧ x.f = y.f ∧ (x.name ≠ "transB" → x.i = y.i)

/-- Two nodes identical except possibly in the value of attributes named
"transB". -/
def nodeEquivTransB (m n : Node) : Prop :=
  m.op_type = n.op_type ∧ m.input = n.input ∧ m.output = n.output ∧
  List.Forall₂ attrEquivTransB m.attrs n.attrs

/-- Two graphs identical except possibly in the value of node attributes
named "transB". -/
def graphEquivTransB (g h : Graph) : Prop :=
  List.Forall₂ nodeEquivTransB g.node h.node ∧ g.initializer = h.initializer ∧
  g.input = h.input ∧ g.output = h.output

/-- A one-Gemm graph with `transB = 0`. -/
def exGemmB0 : Graph :=
  { node := [⟨"Gemm", ["x", "W", "B"], ["out"], [⟨"transB", 0, 0⟩]⟩]
    initializer := [⟨"W", Tensor.mat [[3, 5]]⟩, ⟨"B", Tensor.vec [7]⟩]
    input := [⟨"x"⟩]
    output := [⟨"out"⟩] }

/-- The same graph as `exGemmB0` with `transB = 1`. -/
def exGemmB1 : Graph :=
  { node := [⟨"Gemm", ["x", "W", "B"], ["out"], [⟨"transB", 0, 1⟩]⟩]
    initializer := [⟨"W", Tensor.mat [[3, 5]]⟩, ⟨"B", Tensor.vec [7]⟩]
    input := [⟨"x"⟩]
    output := [⟨"out"⟩] }

/-! ### Helper lemmas shared by the claim theorems -/

/-- A non-empty caller-supplied endpoint name is used as given. -/
theorem resolveEndpoint_given (s : String) (l : List ValueInfo) (h : s ≠ "") :
    resolveEndpoint s l = .ok s := by
  simp [resolveEndpoint, h]

/-- An omitted endpoint name fails to resolve against more than one declared
tensor. -/
theorem resolveEndpoint_empty_of_many (l : List ValueInfo) (h : 1 < l.length) :
    resolveEndpoint "" l = .error .ambiguousEndpoint := by
  unfold resolveEndpoint
  rw [if_pos rfl]
  match l, h with
  | v :: w :: l, _ => rfl

/-- Against a unique declared tensor, the omitted name and the tensor's own
name resolve alike. -/
theorem resolveEndpoint_single (v : ValueInfo) :
    resolveEndpoint "" [v] = .ok v.name ∧ resolveEndpoint v.name [v] = .ok v.name := by
  constructor
  · rfl
  · unfold resolveEndpoint
    split
    · rfl
    · rfl

/-- Scanning a concatenated node list runs the first part and, unless it broke
out of the loop or raised, continues with the second part. -/
theorem runNodes_append (inits : List TensorProto) (out : String)
    (pre rest : List Node) (st : ScanState) :
    runNodes inits out st (pre ++ rest) =
      match runNodes inits out st pre with
      | .error e => .error e
      | .ok (.stop st') => .ok (.stop st')
      | .ok (.cont st') => runNodes inits out st' rest := by
  induction pre generalizing st with
  | nil => simp [runNodes]
  | cons n pre ih =>
    simp only [List.cons_append, runNodes]
    cases stepNode inits out st n with
    | error e => rfl
    | ok oc =>
      cases oc with
      | stop st' => rfl
      | cont st' => exact ih st'

/-- Scalar multiplication fixes the all-zero vector. -/
theorem Tensor.smul_zeros (c : ℚ) (n : Nat) : Tensor.smul c (Tensor.zeros n) = Tensor.zeros n := by
  simp [Tensor.smul, Tensor.zeros, List.map_replicate]

/-- `gemmStep` only touches the `alpha` field on an attribute named "alpha". -/
theorem gemmStep_alpha (acc : GemmAttrs) (a : Attr) (h : a.name ≠ "alpha") :
    (gemmStep acc a).alpha = acc.alpha := by
  unfold gemmStep
  split_ifs <;> simp_all

/-- `gemmStep` only touches the `beta` field on an attribute named "beta". -/
theorem gemmStep_beta (acc : GemmAttrs) (a : Attr) (h : a.name ≠ "beta") :
    (gemmStep acc a).beta = acc.beta := by
  unfold gemmStep
  split_ifs <;> simp_all

/-- `gemmStep` only touches the `transA` field on an attribute named "transA". -/
theorem gemmStep_transA (acc : GemmAttrs) (a : Attr) (h : a.name ≠ "transA") :
    (gemmStep acc a).transA = acc.transA := by
  unfold gemmStep
  split_ifs <;> simp_all

/-- `gemmStep` only touches the `transB` field on an attribute named "transB". -/
theorem gemmStep_transB (acc : GemmAttrs) (a : Attr) (h : a.name ≠ "transB") :
    (gemmStep acc a).transB = acc.transB := by
  unfold gemmStep
  split_ifs <;> simp_all

/-- The attribute fold keeps the `alpha` accumulator when no attribute is
named "alpha". -/
theorem foldl_gemmStep_alpha (l : List Attr) (acc : GemmAttrs)
    (h : ∀ a ∈ l, a.name ≠ "alpha") : (l.foldl gemmStep acc).alpha = acc.alpha := by
  induction l generalizing acc with
  | nil => rfl
  | cons a l ih =>
    rw [List.foldl_cons, ih _ fun b hb => h b (List.mem_cons_of_mem a hb),
      gemmStep_alpha acc a (h a (List.mem_cons_self a l))]

/-- The attribute fold keeps the `beta` accumulator when no attribute is
named "beta". -/
theorem foldl_gemmStep_beta (l : List Attr) (acc : GemmAttrs)
    (h : ∀ a ∈ l, a.name ≠ "beta") : (l.foldl gemmStep acc).beta = acc.beta := by
  induction l generalizing acc with
  | nil => rfl
  | cons a l ih =>
    rw [List.foldl_cons, ih _ fun b hb => h b (List.mem_cons_of_mem a hb),
      gemmStep_beta acc a (h a (List.mem_cons_self a l))]

/-- The attribute fold keeps the `transA` accumulator when no attribute is
named "transA". -/
theorem foldl_gemmStep_transA (l : List Attr) (acc : GemmAttrs)
    (h : ∀ a ∈ l, a.name ≠ "transA") : (l.foldl gemmStep acc).transA = acc.transA := by
  induction l generalizing acc with
  | nil => rfl
  | cons a l ih =>
    rw [List.foldl_cons, ih _ fun b hb => h b (List.mem_cons_of_mem a hb),
      gemmStep_transA acc a (h a (List.mem_cons_self a l))]

/-- The attribute fold keeps the `transB` accumulator when no attribute is
named "transB". -/
theorem foldl_gemmStep_transB (l : List Attr) (acc : GemmAttrs)
    (h : ∀ a ∈ l, a.name ≠ "transB") : (l.foldl gemmStep acc).transB = acc.transB := by
  induction l generalizing acc with
  | nil => rfl
  | cons a l ih =>
    rw [List.foldl_cons, ih _ fun b hb => h b (List.mem_cons_of_mem a hb),
      gemmStep_transB acc a (h a (List.mem_cons_self a l))]

/-! ### Claim theorems -/

/-- C3: for every Gemm node consumed on the chain with stored weight
initializer `w0` and parsed attributes `alpha` and `transA`, the weight matrix
appended to the accumulator equals `alpha` times (`transpose w0` if `transA`
else `w0`); and the attributes `alpha`, `beta`, `transA`, `transB` default to
`1.0`, `1.0`, `false`, `false` when absent from the node's attribute list. -/
theorem gemm_weight_scaling (inits : List TensorProto) (st : ScanState) (n : Node)
    (x wName bName o : String) (os : List String) (w0 : Tensor)
    (hop : n.op_type = "Gemm")
    (hinput : n.input = [x, wName, bName])
    (houtput : n.output = o :: os)
    (hcur : st.cursor ∈ n.input)
    (hw : (initVals inits wName).head? = some w0) :
    (∃ st', consumeNode inits st n = .ok (some st') ∧
      st'.weights = st.weights ++
        [Tensor.smul (parseGemmAttrs n.attrs).alpha
          (if (parseGemmAttrs n.attrs).transA then w0.transpose else w0)] ∧
      st'.cursor = o) ∧
    (∀ attrs : List Attr,
      ((∀ a ∈ attrs, a.name ≠ "alpha") → (parseGemmAttrs attrs).alpha = 1) ∧
      ((∀ a ∈ attrs, a.name ≠ "beta") → (parseGemmAttrs attrs).beta = 1) ∧
      ((∀ a ∈ attrs, a.name ≠ "transA") → (parseGemmAttrs attrs).transA = false) ∧
      ((∀ a ∈ attrs, a.name ≠ "transB") → (parseGemmAttrs attrs).transB = false)) := by
  constructor
  · simp only [consumeNode, hop, hinput, houtput, hw]
    exact ⟨_, rfl, rfl, rfl⟩
  · intro attrs
    exact ⟨foldl_gemmStep_alpha attrs _, foldl_gemmStep_beta attrs _,
      foldl_gemmStep_transA attrs _, foldl_gemmStep_transB attrs _⟩

/-- Witness for C3: a Gemm node with `alpha = 2.0` and `transA = 1` on a
stored 1x2 weight yields `2.0 * transpose(storedWeight)` as the appended
weight. -/
theorem gemm_weight_scaling_witness :
    ∃ st', consumeNode [⟨"W", Tensor.mat [[3, 5]]⟩] ⟨[], [], "x"⟩
        ⟨"Gemm", ["x", "W", "B"], ["y"], [⟨"alpha", 2, 0⟩, ⟨"transA", 0, 1⟩]⟩ =
        .ok (some st') ∧
      st'.weights = [] ++
        [Tensor.smul (parseGemmAttrs [⟨"alpha", 2, 0⟩, ⟨"transA", 0, 1⟩]).alpha
          (if (parseGemmAttrs [⟨"alpha", 2, 0⟩, ⟨"transA", 0, 1⟩]).transA then
            (Tensor.mat [[3, 5]]).transpose
          else Tensor.mat [[3, 5]])] ∧
      st'.cursor = "y" :=
  (gemm_weight_scaling [⟨"W", Tensor.mat [[3, 5]]⟩] ⟨[], [], "x"⟩
    ⟨"Gemm", ["x", "W", "B"], ["y"], [⟨"alpha", 2, 0⟩, ⟨"transA", 0, 1⟩]⟩
    "x" "W" "B" "y" [] (Tensor.mat [[3, 5]]) rfl rfl rfl (by simp) rfl).1

/-- C4: for a Gemm node consumed on the chain, a bias name absent from the
initializers yields an appended bias of all zeros sized to the row count of
the already transposed and scaled weight, and a present bias initializer is
scaled by `beta` before being appended. -/
theorem gemm_bias_default (inits : List TensorProto) (st : ScanState) (n : Node)
    (x wName bName o : String) (os : List String) (w0 : Tensor)
    (hop : n.op_type = "Gemm")
    (hinput : n.input = [x, wName, bName])
    (houtput : n.output = o :: os)
    (hcur : st.cursor ∈ n.input)
    (hw : (initVals inits wName).head? = some w0) :
    (bName ∉ initNames inits →
      ∃ st', consumeNode inits st n = .ok (some st') ∧
        st'.biases = st.biases ++
          [Tensor.zeros (Tensor.smul (parseGemmAttrs n.attrs).alpha
            (if (parseGemmAttrs n.attrs).transA then w0.transpose else w0)).shape0]) ∧
    (∀ b0 : Tensor, bName ∈ initNames inits → (initVals inits bName).head? = some b0 →
      ∃ st', consumeNode inits st n = .ok (some st') ∧
        st'.biases = st.biases ++ [Tensor.smul (parseGemmAttrs n.attrs).beta b0]) := by
  constructor
  · intro hb
    simp only [consumeNode, hop, hinput, houtput, hw, if_neg hb]
    exact ⟨_, rfl, by rw [Tensor.smul_zeros]⟩
  · intro b0 hb hb0
    simp only [consumeNode, hop, hinput, houtput, hw, if_pos hb,
      List.headD_eq_head?_getD, hb0]
    exact ⟨_, rfl, rfl⟩

/-- Witness for C4: applied once to a Gemm whose bias name has no initializer
(appending a zero vector sized to the transformed weight's row count) and once
to a Gemm whose bias is present (appending the `beta`-scaled bias). -/
theorem gemm_bias_default_witness :
    (∃ st', consumeNode [⟨"W", Tensor.mat [[3, 5]]⟩] ⟨[], [], "x"⟩
        ⟨"Gemm", ["x", "W", "B"], ["y"], []⟩ = .ok (some st') ∧
      st'.biases = [] ++
        [Tensor.zeros (Tensor.smul (parseGemmAttrs []).alpha
          (if (parseGemmAttrs []).transA then (Tensor.mat [[3, 5]]).transpose
          else Tensor.mat [[3, 5]])).shape0]) ∧
    (∃ st', consumeNode [⟨"W", Tensor.mat [[3, 5]]⟩, ⟨"B", Tensor.vec [7]⟩] ⟨[], [], "x"⟩
        ⟨"Gemm", ["x", "W", "B"], ["y"], [⟨"beta", 4, 0⟩]⟩ = .ok (some st') ∧
      st'.biases = [] ++
        [Tensor.smul (parseGemmAttrs [⟨"beta", 4, 0⟩]).beta (Tensor.vec [7])]) :=
  ⟨(gemm_bias_default [⟨"W", Tensor.mat [[3, 5]]⟩] ⟨[], [], "x"⟩
      ⟨"Gemm", ["x", "W", "B"], ["y"], []⟩ "x" "W" "B" "y" [] (Tensor.mat [[3, 5]])
      rfl rfl rfl (by simp) rfl).1 (by decide),
   (gemm_bias_default [⟨"W", Tensor.mat [[3, 5]]⟩, ⟨"B", Tensor.vec [7]⟩] ⟨[], [], "x"⟩
      ⟨"Gemm", ["x", "W", "B"], ["y"], [⟨"beta", 4, 0⟩]⟩ "x" "W" "B" "y" []
      (Tensor.mat [[3, 5]]) rfl rfl rfl (by simp) rfl).2 (Tensor.vec [7])
      (by decide) rfl⟩

/-- C10: a consumed MatMul (resp. Add) node appends exactly the values of the
initializers whose name equals the node's non-cursor operand, so it appends
as many weight (resp. bias) entries as there are matching initializers: zero
when the name is absent, several when the name is duplicated. -/
theorem matching_initializer_multiplicity :
    (∀ (inits : List TensorProto) (st : ScanState) (n : Node) (a b o : String)
      (os : List String),
      n.op_type = "MatMul" → n.input = [a, b] → n.output = o :: os → st.cursor ∈ n.input →
      consumeNode inits st n =
        .ok (some ⟨st.weights ++ initVals inits (if a = st.cursor then b else a),
          st.biases, o⟩) ∧
      (initVals inits (if a = st.cursor then b else a)).length =
        (inits.filter fun i => i.name = (if a = st.cursor then b else a)).length) ∧
    (∀ (inits : List TensorProto) (st : ScanState) (n : Node) (a b o : String)
      (os : List String),
      n.op_type = "Add" → n.input = [a, b] → n.output = o :: os → st.cursor ∈ n.input →
      consumeNode inits st n =
        .ok (some ⟨st.weights,
          st.biases ++ initVals inits (if a = st.cursor then b else a), o⟩) ∧
      (initVals inits (if a = st.cursor then b else a)).length =
        (inits.filter fun i => i.name = (if a = st.cursor then b else a)).length) := by
  constructor
  · intro inits st n a b o os hop hinput houtput hcur
    constructor
    · simp [consumeNode, hop, hinput, houtput]
    · simp [initVals]
  · intro inits st n a b o os hop hinput houtput hcur
    constructor
    · simp [consumeNode, hop, hinput, houtput]
    · simp [initVals]

/-- Witness for C10: a MatMul whose weight name matches two initializers
appends both of their values, and an Add whose bias name matches no
initializer appends nothing. -/
theorem matching_initializer_multiplicity_witness :
    (consumeNode [⟨"W", Tensor.mat [[1]]⟩, ⟨"W", Tensor.mat [[2]]⟩] ⟨[], [], "x"⟩
        ⟨"MatMul", ["x", "W"], ["y"], []⟩ =
      .ok (some ⟨[] ++ initVals [⟨"W", Tensor.mat [[1]]⟩, ⟨"W", Tensor.mat [[2]]⟩]
        (if "x" = "x" then "W" else "x"), [], "y"⟩)) ∧
    (consumeNode [⟨"W", Tensor.mat [[1]]⟩] ⟨[], [], "x"⟩
        ⟨"Add", ["x", "B"], ["y"], []⟩ =
      .ok (some ⟨[], [] ++ initVals [⟨"W", Tensor.mat [[1]]⟩]
        (if "x" = "x" then "B" else "x"), "y"⟩)) :=
  ⟨(matching_initializer_multiplicity.1 [⟨"W", Tensor.mat [[1]]⟩, ⟨"W", Tensor.mat [[2]]⟩]
      ⟨[], [], "x"⟩ ⟨"MatMul", ["x", "W"], ["y"], []⟩ "x" "W" "y" []
      rfl rfl rfl (by simp)).1,
   (matching_initializer_multiplicity.2 [⟨"W", Tensor.mat [[1]]⟩]
      ⟨[], [], "x"⟩ ⟨"Add", ["x", "B"], ["y"], []⟩ "x" "B" "y" []
      rfl rfl rfl (by simp)).1⟩

/-- C1: given that the scan completed with final state `st`, the conversion
hands a layer list to the writer exactly when the cursor equals the resolved
output name, the weight count is positive and the weight count equals the
bias count; when any of the three conditions fails it reports the incomplete
chain with the cursor, the output name and both counts, and no write-argument
record is produced. -/
theorem validation_gate (g : Graph)
    (inputMins inputMaxes means ranges : Option (List ℚ))
    (inputName outputName : String) (tt : Bool)
    (inName outName : String) (st : ScanState)
    (hin : resolveEndpoint inputName g.input = .ok inName)
    (hout : resolveEndpoint outputName g.output = .ok outName)
    (hscan : scanNodes g.initializer outName ⟨[], [], inName⟩ g.node = .ok st) :
    ((∃ args, onnx2nnet g inputMins inputMaxes means ranges inputName outputName tt =
        .ok args) ↔
      (st.cursor = outName ∧
        0 < (if tt then st.weights.map Tensor.transpose else st.weights).length ∧
        (if tt then st.weights.map Tensor.transpose else st.weights).length =
          st.biases.length)) ∧
    (¬ (st.cursor = outName ∧
        0 < (if tt then st.weights.map Tensor.transpose else st.weights).length ∧
        (if tt then st.weights.map Tensor.transpose else st.weights).length =
          st.biases.length) →
      onnx2nnet g inputMins inputMaxes means ranges inputName outputName tt =
        .error (.incompleteChain st.cursor outName
          (if tt then st.weights.map Tensor.transpose else st.weights).length
          st.biases.length)) := by
  simp only [onnx2nnet, hin, hout, hscan]
  constructor
  · constructor
    · rintro ⟨args, hargs⟩
      by_cases h : st.cursor = outName ∧
          0 < (if tt then st.weights.map Tensor.transpose else st.weights).length ∧
          (if tt then st.weights.map Tensor.transpose else st.weights).length =
            st.biases.length
      · exact h
      · rw [if_neg h] at hargs
        exact absurd hargs (by simp)
    · intro h
      rw [if_pos h]
      exact ⟨_, rfl⟩
  · intro h
    rw [if_neg h]

/-- Witness for C1: on the concrete graph `exNet` the scan ends at the output
with one weight and one bias, so the conversion succeeds. -/
theorem validation_gate_witness :
    ∃ args, onnx2nnet exNet none none none none "" "" false = .ok args :=
  (validation_gate exNet none none none none "" "" false "x" "out"
      ⟨[Tensor.mat [[3, 5]]], [Tensor.vec [7]], "out"⟩ rfl rfl (by decide)).1.mpr
    ⟨rfl, by decide, by decide⟩

/-- C2: if the scan, with cursor value `st.cursor`, reaches a node whose input
list contains the cursor and whose operator kind is outside
{MatMul, Add, Gemm, Relu}, the scan ends at that node with both accumulators
cleared, and the conversion reports a failure with zero layers — even though
layers may have been accumulated over the preceding nodes. -/
theorem unsupported_operator_aborts (g : Graph)
    (inputMins inputMaxes means ranges : Option (List ℚ))
    (inputName outputName inName outName : String) (tt : Bool)
    (pre post : List Node) (bad : Node) (st : ScanState)
    (hin : resolveEndpoint inputName g.input = .ok inName)
    (hout : resolveEndpoint outputName g.output = .ok outName)
    (hnodes : g.node = pre ++ bad :: post)
    (hpre : runNodes g.initializer outName ⟨[], [], inName⟩ pre = .ok (.cont st))
    (hcur : st.cursor ∈ bad.input)
    (h1 : bad.op_type ≠ "MatMul") (h2 : bad.op_type ≠ "Add")
    (h3 : bad.op_type ≠ "Gemm") (h4 : bad.op_type ≠ "Relu") :
    scanNodes g.initializer outName ⟨[], [], inName⟩ g.node = .ok ⟨[], [], st.cursor⟩ ∧
    onnx2nnet g inputMins inputMaxes means ranges inputName outputName tt =
      .error (.incompleteChain st.cursor outName 0 0) := by
  have hbad : consumeNode g.initializer st bad = .ok none := by
    simp [consumeNode, if_neg h1, if_neg h2, if_neg h3, if_neg h4]
  have hstep : stepNode g.initializer outName st bad = .ok (.stop ⟨[], [], st.cursor⟩) := by
    simp [stepNode, hcur, hbad]
  have hscan : scanNodes g.initializer outName ⟨[], [], inName⟩ g.node =
      .ok ⟨[], [], st.cursor⟩ := by
    rw [scanNodes, hnodes, runNodes_append, hpre]
    show (runNodes g.initializer outName st (bad :: post)).map ScanOutcome.state = _
    rw [runNodes, hstep]
    rfl
  refine ⟨hscan, ?_⟩
  simp only [onnx2nnet, hin, hout, hscan]
  simp

/-- Witness for C2: on the concrete graph `exAbort` a weight matrix is
accumulated from the `MatMul` first, then the `Flatten` node clears
everything and the conversion fails with zero layers. -/
theorem unsupported_operator_aborts_witness :
    scanNodes exAbort.initializer "out" ⟨[], [], "x"⟩ exAbort.node = .ok ⟨[], [], "y"⟩ ∧
    onnx2nnet exAbort none none none none "" "" false =
      .error (.incompleteChain "y" "out" 0 0) :=
  unsupported_operator_aborts exAbort none none none none "" "" "x" "out" false
    [⟨"MatMul", ["x", "W"], ["y"], []⟩] [] ⟨"Flatten", ["y"], ["z"], []⟩
    ⟨[Tensor.mat [[3, 5]]], [], "y"⟩ rfl rfl rfl (by decide) (by decide)
    (by decide) (by decide) (by decide) (by decide)

/-- C9: an omitted input (resp. output) endpoint name fails the conversion
when the graph declares more than one graph-level input (resp. output)
tensor, and is inferred as the unique declared tensor's name when exactly one
is declared. -/
theorem ambiguous_endpoint (g : Graph) (mins maxes ms rs : Option (List ℚ)) (tt : Bool) :
    (∀ outputName, 1 < g.input.length →
      onnx2nnet g mins maxes ms rs "" outputName tt = .error .ambiguousEndpoint) ∧
    (∀ outputName v, g.input = [v] →
      onnx2nnet g mins maxes ms rs "" outputName tt =
        onnx2nnet g mins maxes ms rs v.name outputName tt) ∧
    (∀ inputName, inputName ≠ "" → 1 < g.output.length →
      onnx2nnet g mins maxes ms rs inputName "" tt = .error .ambiguousEndpoint) ∧
    (∀ inputName v, inputName ≠ "" → g.output = [v] →
      onnx2nnet g mins maxes ms rs inputName "" tt =
        onnx2nnet g mins maxes ms rs inputName v.name tt) := by
  refine ⟨?_, ?_, ?_, ?_⟩
  · intro outputName h
    simp [onnx2nnet, resolveEndpoint_empty_of_many g.input h]
  · intro outputName v hv
    have h1 : resolveEndpoint "" g.input = .ok v.name := by
      rw [hv]; exact (resolveEndpoint_single v).1
    have h2 : resolveEndpoint v.name g.input = .ok v.name := by
      rw [hv]; exact (resolveEndpoint_single v).2
    simp only [onnx2nnet, h1, h2]
  · intro inputName hne h
    simp [onnx2nnet, resolveEndpoint_given inputName g.input hne,
      resolveEndpoint_empty_of_many g.output h]
  · intro inputName v hne hv
    have h1 : resolveEndpoint "" g.output = .ok v.name := by
      rw [hv]; exact (resolveEndpoint_single v).1
    have h2 : resolveEndpoint v.name g.output = .ok v.name := by
      rw [hv]; exact (resolveEndpoint_single v).2
    simp only [onnx2nnet, resolveEndpoint_given inputName g.input hne, h1, h2]

/-- Witness for C9: the two-input graph `exAmb` fails with an omitted input
name, and on `exNet` (one declared input named "x") omitting the input name
behaves like passing "x". -/
theorem ambiguous_endpoint_witness :
    onnx2nnet exAmb none none none none "" "o" false = .error .ambiguousEndpoint ∧
    onnx2nnet exNet none none none none "" "out" false =
      onnx2nnet exNet none none none none "x" "out" false :=
  ⟨(ambiguous_endpoint exAmb none none none none false).1 "o" (by decide),
   (ambiguous_endpoint exNet none none none none false).2.1 "out" ⟨"x"⟩ rfl⟩

/-- C8: when the post-scan validation passes and all four normalization
arguments are omitted, the writer receives `inputMins`/`inputMaxes` of length
`k` filled with the most negative/most positive representable float32 value
and `means`/`ranges` of length `k + 1` filled with `0.0`/`1.0`, where `k` is
the row count of the first extracted weight matrix. -/
theorem default_normalization (g : Graph)
    (inputName outputName : String) (tt : Bool)
    (inName outName : String) (st : ScanState)
    (hin : resolveEndpoint inputName g.input = .ok inName)
    (hout : resolveEndpoint outputName g.output = .ok outName)
    (hscan : scanNodes g.initializer outName ⟨[], [], inName⟩ g.node = .ok st)
    (hcond : st.cursor = outName ∧
      0 < (if tt then st.weights.map Tensor.transpose else st.weights).length ∧
      (if tt then st.weights.map Tensor.transpose else st.weights).length =
        st.biases.length) :
    onnx2nnet g none none none none inputName outputName tt =
      .ok
        { weights := if tt then st.weights.map Tensor.transpose else st.weights
          biases := st.biases
          inputMins := List.replicate
            (((if tt then st.weights.map Tensor.transpose else st.weights).headD
              (Tensor.vec [])).shape0) float32min
          inputMaxes := List.replicate
            (((if tt then st.weights.map Tensor.transpose else st.weights).headD
              (Tensor.vec [])).shape0) float32max
          means := List.replicate
            (((if tt then st.weights.map Tensor.transpose else st.weights).headD
              (Tensor.vec [])).shape0 + 1) 0
          ranges := List.replicate
            (((if tt then st.weights.map Tensor.transpose else st.weights).headD
              (Tensor.vec [])).shape0 + 1) 1 } := by
  simp only [onnx2nnet, hin, hout, hscan]
  rw [if_pos hcond]
  rfl

/-- Witness for C8: the conversion of `exNet` with no caller-supplied bounds
receives default normalization arrays for input feature count 1. -/
theorem default_normalization_witness :
    onnx2nnet exNet none none none none "" "" false =
      .ok
        { weights := if false then
            ([Tensor.mat [[3, 5]]] : List Tensor).map Tensor.transpose
          else [Tensor.mat [[3, 5]]]
          biases := [Tensor.vec [7]]
          inputMins := List.replicate
            (((if false then ([Tensor.mat [[3, 5]]] : List Tensor).map Tensor.transpose
              else [Tensor.mat [[3, 5]]]).headD (Tensor.vec [])).shape0) float32min
          inputMaxes := List.replicate
            (((if false then ([Tensor.mat [[3, 5]]] : List Tensor).map Tensor.transpose
              else [Tensor.mat [[3, 5]]]).headD (Tensor.vec [])).shape0) float32max
          means := List.replicate
            (((if false then ([Tensor.mat [[3, 5]]] : List Tensor).map Tensor.transpose
              else [Tensor.mat [[3, 5]]]).headD (Tensor.vec [])).shape0 + 1) 0
          ranges := List.replicate
            (((if false then ([Tensor.mat [[3, 5]]] : List Tensor).map Tensor.transpose
              else [Tensor.mat [[3, 5]]]).headD (Tensor.vec [])).shape0 + 1) 1 } :=
  default_normalization exNet "" "" false "x" "out"
    ⟨[Tensor.mat [[3, 5]]], [Tensor.vec [7]], "out"⟩ rfl rfl (by decide)
    ⟨rfl, by decide, by decide⟩

/-- Counterexample to C5: on `exMissing`, the `MatMul` node's weight name
`"Wmiss"` has no initializer entry, yet the scan does not fail there — it
silently consumes the node, appends no weight, advances the cursor to the
output, and the conversion finally fails with the chain-count validation
(`incompleteChain`), not with `missingInitializer`. -/
theorem missing_weight_counterexample :
    initVals exMissing.initializer "Wmiss" = [] ∧
    scanNodes exMissing.initializer "out" ⟨[], [], "x"⟩ exMissing.node =
      .ok ⟨[], [Tensor.vec [7]], "out"⟩ ∧
    onnx2nnet exMissing none none none none "" "" false =
      .error (.incompleteChain "out" "out" 0 1) := by
  decide

/-- C5 (amended): a Gemm node on the chain whose weight name has no matching
initializer makes the whole conversion fail with `missingInitializer`; a
MatMul node whose weight name has no matching initializer is silently
consumed, appending no weight and merely advancing the cursor. -/
theorem missing_weight_behavior :
    (∀ (g : Graph) (mins maxes ms rs : Option (List ℚ))
      (inputName outputName inName outName : String) (tt : Bool)
      (pre post : List Node) (n : Node) (st : ScanState) (x wName bName : String),
      resolveEndpoint inputName g.input = .ok inName →
      resolveEndpoint outputName g.output = .ok outName →
      g.node = pre ++ n :: post →
      runNodes g.initializer outName ⟨[], [], inName⟩ pre = .ok (.cont st) →
      st.cursor ∈ n.input →
      n.op_type = "Gemm" → n.input = [x, wName, bName] →
      (initVals g.initializer wName).head? = none →
      onnx2nnet g mins maxes ms rs inputName outputName tt =
        .error (.missingInitializer wName)) ∧
    (∀ (inits : List TensorProto) (st : ScanState) (n : Node) (a b o : String)
      (os : List String),
      n.op_type = "MatMul" → n.input = [a, b] → n.output = o :: os →
      st.cursor ∈ n.input →
      initVals inits (if a = st.cursor then b else a) = [] →
      consumeNode inits st n = .ok (some ⟨st.weights, st.biases, o⟩)) := by
  constructor
  · intro g mins maxes ms rs inputName outputName inName outName tt pre post n st
      x wName bName hin hout hnodes hpre hcur hop hinput hw
    have hbad : consumeNode g.initializer st n = .error (.missingInitializer wName) := by
      simp [consumeNode, hop, hinput, hw]
    have hstep : stepNode g.initializer outName st n =
        .error (.missingInitializer wName) := by
      simp [stepNode, hcur, hbad]
    have hscan : scanNodes g.initializer outName ⟨[], [], inName⟩ g.node =
        .error (.missingInitializer wName) := by
      rw [scanNodes, hnodes, runNodes_append, hpre]
      show (runNodes g.initializer outName st (n :: post)).map ScanOutcome.state = _
      rw [runNodes, hstep]
      rfl
    simp only [onnx2nnet, hin, hout, hscan]
  · intro inits st n a b o os hop hinput houtput hcur hempty
    simp [consumeNode, hop, hinput, houtput, hempty]

/-- Witness for C5 (amended): `exMissingGemm` fails with
`missingInitializer "Wm"`, while a single MatMul with a missing weight is
consumed leaving the accumulators unchanged. -/
theorem missing_weight_behavior_witness :
    onnx2nnet exMissingGemm none none none none "" "" false =
      .error (.missingInitializer "Wm") ∧
    consumeNode [] ⟨[], [], "x"⟩ ⟨"MatMul", ["x", "Wmiss"], ["y"], []⟩ =
      .ok (some ⟨[], [], "y"⟩) :=
  ⟨missing_weight_behavior.1 exMissingGemm none none none none "" "" "x" "out" false
      [] [] ⟨"Gemm", ["x", "Wm", "B"], ["out"], []⟩ ⟨[], [], "x"⟩ "x" "Wm" "B"
      rfl rfl rfl rfl (by decide) rfl rfl rfl,
   missing_weight_behavior.2 [] ⟨[], [], "x"⟩ ⟨"MatMul", ["x", "Wmiss"], ["y"], []⟩
      "x" "Wmiss" "y" [] rfl rfl rfl (by decide) rfl⟩

/-- The non-cursor operand of a two-operand node is selected symmetrically:
when the cursor is one of the two operands, reversing them picks the same
name. -/
theorem swap_select (a b c : String) (h : c = a ∨ c = b) :
    (if b = c then a else b) = (if a = c then b else a) := by
  rcases h with rfl | rfl
  · rw [if_pos rfl]
    by_cases hba : b = c
    · rw [if_pos hba, hba]
    · rw [if_neg hba]
  · rw [if_pos rfl]
    by_cases hab : a = c
    · rw [if_pos hab]
      exact hab
    · rw [if_neg hab]

/-- Consuming a MatMul or Add node on the chain is invariant under reversing
its two input operands. -/
theorem consumeNode_input_reverse (inits : List TensorProto) (st : ScanState) (n : Node)
    (hop : n.op_type = "MatMul" ∨ n.op_type = "Add") (hcur : st.cursor ∈ n.input) :
    consumeNode inits st { n with input := n.input.reverse } = consumeNode inits st n := by
  obtain ⟨op, input, output, attrs⟩ := n
  simp only at hcur
  rcases hop with hop | hop <;> simp only at hop <;> subst hop <;>
    rcases input with _ | ⟨a, _ | ⟨b, _ | ⟨c, r⟩⟩⟩
  · exact absurd hcur (by simp)
  · rfl
  · show (match output with
        | o :: _ => Except.ok (some (⟨st.weights ++ initVals inits
            (if b = st.cursor then a else b), st.biases, o⟩ : ScanState))
        | [] => Except.error (ExtractionFailure.emptyOutput "MatMul")) =
      (match output with
        | o :: _ => Except.ok (some (⟨st.weights ++ initVals inits
            (if a = st.cursor then b else a), st.biases, o⟩ : ScanState))
        | [] => Except.error (ExtractionFailure.emptyOutput "MatMul"))
    rw [swap_select a b st.cursor (by simpa using hcur)]
  · rcases hr : (a :: b :: c :: r).reverse with _ | ⟨x, _ | ⟨y, _ | ⟨z, s⟩⟩⟩
    · exact absurd (congrArg List.length hr) (by simp)
    · exact absurd (congrArg List.length hr) (by simp)
    · exact absurd (congrArg List.length hr) (by simp)
    · rfl
  · exact absurd hcur (by simp)
  · rfl
  · show (match output with
        | o :: _ => Except.ok (some (⟨st.weights, st.biases ++ initVals inits
            (if b = st.cursor then a else b), o⟩ : ScanState))
        | [] => Except.error (ExtractionFailure.emptyOutput "Add")) =
      (match output with
        | o :: _ => Except.ok (some (⟨st.weights, st.biases ++ initVals inits
            (if a = st.cursor then b else a), o⟩ : ScanState))
        | [] => Except.error (ExtractionFailure.emptyOutput "Add"))
    rw [swap_select a b st.cursor (by simpa using hcur)]
  · rcases hr : (a :: b :: c :: r).reverse with _ | ⟨x, _ | ⟨y, _ | ⟨z, s⟩⟩⟩
    · exact absurd (congrArg List.length hr) (by simp)
    · exact absurd (congrArg List.length hr) (by simp)
    · exact absurd (congrArg List.length hr) (by simp)
    · rfl

/-- A full scan step over a MatMul or Add node is invariant under reversing
its two input operands. -/
theorem stepNode_input_reverse (inits : List TensorProto) (out : String) (st : ScanState)
    (n : Node) (hop : n.op_type = "MatMul" ∨ n.op_type = "Add") :
    stepNode inits out st { n with input := n.input.reverse } = stepNode inits out st n := by
  have hmem : st.cursor ∈ ({ n with input := n.input.reverse } : Node).input ↔
      st.cursor ∈ n.input := by
    simp
  unfold stepNode
  by_cases hcur : st.cursor ∈ n.input
  · rw [if_pos hcur, if_pos (hmem.mpr hcur), consumeNode_input_reverse inits st n hop hcur]
  · rw [if_neg hcur, if_neg fun hh => hcur (hmem.mp hh)]

/-- C7: reversing the two input operands of a MatMul or Add node anywhere in
the graph leaves the whole conversion result unchanged — the non-cursor
operand is taken as the weight or bias name whichever position it occupies. -/
theorem operand_order_invariance (g : Graph)
    (mins maxes ms rs : Option (List ℚ)) (inputName outputName : String) (tt : Bool)
    (pre post : List Node) (n : Node)
    (hnodes : g.node = pre ++ n :: post)
    (hop : n.op_type = "MatMul" ∨ n.op_type = "Add") :
    onnx2nnet { g with node := pre ++ { n with input := n.input.reverse } :: post }
      mins maxes ms rs inputName outputName tt =
      onnx2nnet g mins maxes ms rs inputName outputName tt := by
  have hscan : ∀ (out : String) (st0 : ScanState),
      runNodes g.initializer out st0 (pre ++ { n with input := n.input.reverse } :: post) =
      runNodes g.initializer out st0 (pre ++ n :: post) := by
    intro out st0
    rw [runNodes_append, runNodes_append]
    cases hr : runNodes g.initializer out st0 pre with
    | error e => rfl
    | ok oc =>
      cases oc with
      | stop st' => rfl
      | cont st' =>
        show runNodes g.initializer out st'
            ({ n with input := n.input.reverse } :: post) = _
        simp only [runNodes]
        rw [stepNode_input_reverse g.initializer out st' n hop]
  simp only [onnx2nnet, scanNodes, hnodes]
  simp only [hscan]

/-- Witness for C7: reversing the MatMul operands of `exNet` gives the same
conversion result. -/
theorem operand_order_invariance_witness :
    onnx2nnet
      { node := [⟨"MatMul", ["W", "x"], ["h"], []⟩, ⟨"Add", ["h", "B"], ["y"], []⟩,
          ⟨"Relu", ["y"], ["out"], []⟩]
        initializer := [⟨"W", Tensor.mat [[3, 5]]⟩, ⟨"B", Tensor.vec [7]⟩]
        input := [⟨"x"⟩]
        output := [⟨"out"⟩] } none none none none "" "" false =
      onnx2nnet exNet none none none none "" "" false :=
  operand_order_invariance exNet none none none none "" "" false
    [] [⟨"Add", ["h", "B"], ["y"], []⟩, ⟨"Relu", ["y"], ["out"], []⟩]
    ⟨"MatMul", ["x", "W"], ["h"], []⟩ rfl (Or.inl rfl)

/-- One attribute-loop step preserves agreement of the `alpha`, `beta` and
`transA` accumulators across attributes that differ only in a "transB" int
payload. -/
theorem gemmStep_equivTransB (acc1 acc2 : GemmAttrs) (x y : Attr)
    (hxy : attrEquivTransB x y)
    (h1 : acc1.alpha = acc2.alpha) (h2 : acc1.beta = acc2.beta)
    (h3 : acc1.transA = acc2.transA) :
    (gemmStep acc1 x).alpha = (gemmStep acc2 y).alpha ∧
    (gemmStep acc1 x).beta = (gemmStep acc2 y).beta ∧
    (gemmStep acc1 x).transA = (gemmStep acc2 y).transA := by
  obtain ⟨hn, hf, hi⟩ := hxy
  have hi' : y.name ≠ "transB" → x.i = y.i := fun hh => hi (by rw [hn]; exact hh)
  unfold gemmStep
  rw [hn, hf]
  by_cases e1 : y.name = "alpha"
  · simp [e1, h2, h3]
  · by_cases e2 : y.name = "beta"
    · simp [e2, e1, h1, h3]
    · by_cases e3 : y.name = "transA"
      · have hii : x.i = y.i := hi' (by rw [e3]; decide)
        simp [e3, e1, e2, h1, h2, hii]
      · by_cases e4 : y.name = "transB"
        · simp [e4, e1, e2, e3, h1, h2, h3]
        · simp [e1, e2, e3, e4, h1, h2, h3]

/-- The attribute fold preserves agreement of `alpha`, `beta` and `transA`
across attribute lists that differ only in "transB" int payloads. -/
theorem foldl_gemmStep_equivTransB :
    ∀ {l1 l2 : List Attr}, List.Forall₂ attrEquivTransB l1 l2 →
    ∀ acc1 acc2 : GemmAttrs, acc1.alpha = acc2.alpha → acc1.beta = acc2.beta →
    acc1.transA = acc2.transA →
    (l1.foldl gemmStep acc1).alpha = (l2.foldl gemmStep acc2).alpha ∧
    (l1.foldl gemmStep acc1).beta = (l2.foldl gemmStep acc2).beta ∧
    (l1.foldl gemmStep acc1).transA = (l2.foldl gemmStep acc2).transA := by
  intro l1 l2 h
  induction h with
  | nil => intro acc1 acc2 h1 h2 h3; exact ⟨h1, h2, h3⟩
  | cons hxy hl ih =>
    intro acc1 acc2 h1 h2 h3
    obtain ⟨e1, e2, e3⟩ := gemmStep_equivTransB acc1 acc2 _ _ hxy h1 h2 h3
    exact ih _ _ e1 e2 e3

/-- The parsed Gemm attributes agree on `alpha`, `beta` and `transA` when the
attribute lists differ only in "transB" int payloads. -/
theorem parseGemmAttrs_equivTransB {l1 l2 : List Attr}
    (h : List.Forall₂ attrEquivTransB l1 l2) :
    (parseGemmAttrs l1).alpha = (parseGemmAttrs l2).alpha ∧
    (parseGemmAttrs l1).beta = (parseGemmAttrs l2).beta ∧
    (parseGemmAttrs l1).transA = (parseGemmAttrs l2).transA :=
  foldl_gemmStep_equivTransB h _ _ rfl rfl rfl

/-- Consuming a node is insensitive to the value of its "transB"
attributes. -/
theorem consumeNode_equivTransB (inits : List TensorProto) (st : ScanState) (m n : Node)
    (h : nodeEquivTransB m n) :
    consumeNode inits st m = consumeNode inits st n := by
  obtain ⟨hop, hin, hout, hattrs⟩ := h
  obtain ⟨e1, e2, e3⟩ := parseGemmAttrs_equivTransB hattrs
  simp only [consumeNode, hop, hin, hout, e1, e2, e3]

/-- One scan step is insensitive to the value of the node's "transB"
attributes. -/
theorem stepNode_equivTransB (inits : List TensorProto) (out : String) (st : ScanState)
    (m n : Node) (h : nodeEquivTransB m n) :
    stepNode inits out st m = stepNode inits out st n := by
  unfold stepNode
  rw [h.2.1, consumeNode_equivTransB inits st m n h]

/-- The scan loop is insensitive to the value of "transB" attributes across
the node list. -/
theorem runNodes_equivTransB (inits : List TensorProto) (out : String) :
    ∀ {l1 l2 : List Node}, List.Forall₂ nodeEquivTransB l1 l2 →
    ∀ st : ScanState, runNodes inits out st l1 = runNodes inits out st l2 := by
  intro l1 l2 h
  induction h with
  | nil => intro st; rfl
  | cons hmn hl ih =>
    intro st
    simp only [runNodes]
    rw [stepNode_equivTransB inits out st _ _ hmn]
    cases stepNode inits out st _ with
    | error e => rfl
    | ok oc =>
      cases oc with
      | stop st' => rfl
      | cont st' => exact ih st'

/-- C6: two conversions of graphs identical except for the values of "transB"
attributes produce identical results — the `transB` attribute is parsed but
never applied. -/
theorem transB_irrelevant (g h : Graph) (mins maxes ms rs : Option (List ℚ))
    (inputName outputName : String) (tt : Bool)
    (heq : graphEquivTransB g h) :
    onnx2nnet g mins maxes ms rs inputName outputName tt =
      onnx2nnet h mins maxes ms rs inputName outputName tt := by
  obtain ⟨hnode, hinit, hin, hout⟩ := heq
  have hrun : ∀ (out : String) (st : ScanState),
      runNodes g.initializer out st g.node = runNodes h.initializer out st h.node := by
    intro out st
    rw [hinit]
    exact runNodes_equivTransB h.initializer out hnode st
  simp only [onnx2nnet, scanNodes, hin, hout]
  simp only [hrun]

/-- Witness for C6: the one-Gemm graphs `exGemmB0` and `exGemmB1`, differing
only in the `transB` attribute value, convert identically. -/
theorem transB_irrelevant_witness :
    onnx2nnet exGemmB0 none none none none "" "" false =
      onnx2nnet exGemmB1 none none none none "" "" false :=
  transB_irrelevant exGemmB0 exGemmB1 none none none none "" "" false
    ⟨.cons ⟨rfl, rfl, rfl, .cons ⟨rfl, rfl, fun hh => absurd rfl hh⟩ .nil⟩ .nil,
      rfl, rfl, rfl⟩

end Onnx2NNet
